import Mathlib

set_option autoImplicit false

/-!
Verification development for the Stable MIR construction layer
(`compiler/rustc_smir/src/rustc_smir/mod.rs`) and the
`read_zero_byte_vec` lint (`clippy_lints/src/read_zero_byte_vec.rs`).

Internal (rustc-side) shapes are modelled with an `I` prefix; the stable
(output) shapes keep their `stable_mir` names inside namespace `StableMir`.
Rust `todo!()` is modelled as the `ConvErr.notYetImplemented` outcome and
`unreachable!()` as `ConvErr.invariantViolated`, both terminating the
current query via `Except`.
-/

/-- The two non-recoverable failure kinds at the conversion boundary:
`todo!()` (a shape this layer has not yet defined a counterpart for) and
`unreachable!()` (a shape assumed impossible at this IR stage). -/
inductive ConvErr where
  | notYetImplemented
  | invariantViolated
deriving DecidableEq

/-- A reproducible-but-non-structural token wrapping a formatted rendering of
an internal value.  Modelled from the spec: the `opaque` helper of
`rustc_internal` (not under `src/`) wraps the display rendering of an internal
value that has no stable structural counterpart; internal values that are only
ever rendered are modelled as their rendering `String`. -/
structure Opaque where
  str : String
deriving DecidableEq

/-- Modelled from the spec: Identity Derivation (§4.4) derives a stable,
session-deterministic identifier from an internal definition identity; the
`rustc_internal` helpers (`crate_item`, `adt_def`, `foreign_def`, `fn_def`,
`closure_def`, `generator_def`, `param_def`, `br_named_def`) are each a pure,
deterministic, round-trippable function of the internal `DefId`, modelled as
the identity on the numeric identity. -/
def idDerive (defId : Nat) : Nat := defId

/-- Modelled from the spec: the black-box stringifier producing an `Opaque`
value from an internal value's rendering (the `rustc_internal` helper that
wraps a debug rendering). -/
def mkOpaque (render : String) : Opaque := ⟨render⟩

/-! ## Internal (rustc) primitive enumerations -/

inductive IIntTy where
  | isize | i8 | i16 | i32 | i64 | i128
deriving DecidableEq

inductive IUintTy where
  | usize | u8 | u16 | u32 | u64 | u128
deriving DecidableEq

inductive IFloatTy where
  | f32 | f64
deriving DecidableEq

/-- Internal `mir::Mutability`. -/
inductive IMutability where
  | not | mut
deriving DecidableEq

/-- Internal `hir::Movability`. -/
inductive IMovability where
  | staticM | movable
deriving DecidableEq

/-- Internal `hir::Unsafety`. -/
inductive IUnsafety where
  | unsafeK | normal
deriving DecidableEq

/-- Internal `rustc_target::spec::abi::Abi`. -/
inductive IAbi where
  | rust
  | c (unwind : Bool)
  | cdecl (unwind : Bool)
  | stdcall (unwind : Bool)
  | fastcall (unwind : Bool)
  | vectorcall (unwind : Bool)
  | thiscall (unwind : Bool)
  | aapcs (unwind : Bool)
  | win64 (unwind : Bool)
  | sysV64 (unwind : Bool)
  | ptxKernel
  | msp430Interrupt
  | x86Interrupt
  | amdGpuKernel
  | efiApi
  | avrInterrupt
  | avrNonBlockingInterrupt
  | cCmseNonSecureCall
  | wasm
  | system (unwind : Bool)
  | rustIntrinsic
  | rustCall
  | platformIntrinsic
  | unadjusted
  | rustCold
deriving DecidableEq

/-- Internal `ty::BoundTyKind`. -/
inductive IBoundTyKind where
  | anon
  | param (defId : Nat) (symbol : String)
deriving DecidableEq

/-- Internal `ty::BoundRegionKind`; the optional span payload of `BrAnon` is
modelled as its rendering. -/
inductive IBoundRegionKind where
  | brAnon (optionSpan : Option String)
  | brNamed (defId : Nat) (symbol : String)
  | brEnv
deriving DecidableEq

/-- Internal `ty::BoundVariableKind`. -/
inductive IBoundVariableKind where
  | ty (k : IBoundTyKind)
  | region (k : IBoundRegionKind)
  | const
deriving DecidableEq

/-! ## Internal type values (`Ty<'tcx>`, as matched by `Stable for Ty`)

The internal type value family is mutually recursive: a type's generic
arguments contain types, a function-pointer signature contains types.
Regions and constants are modelled as their renderings (they are only ever
passed to `opaque`).  Variants that the conversion does not decompose
(`Dynamic`, `Alias`, `Param`, `Bound`, `Placeholder`, `GeneratorWitness`,
`GeneratorWitnessMIR`, `Infer`, `Error`) carry representative payloads. -/

mutual

inductive IGenericArg where
  | lifetime (region : String)
  | tyArg (t : ITy)
  | constArg (c : String)

inductive IFnSig where
  | mk (inputsAndOutput : List ITy) (cVariadic : Bool)
       (unsafety : IUnsafety) (abi : IAbi)

inductive IPolyFnSig where
  | mk (value : IFnSig) (boundVars : List IBoundVariableKind)

inductive ITy where
  | bool
  | char
  | int (t : IIntTy)
  | uint (t : IUintTy)
  | float (t : IFloatTy)
  | adt (defId : Nat) (args : List IGenericArg)
  | foreign (defId : Nat)
  | str
  | array (elem : ITy) (const : String)
  | slice (elem : ITy)
  | rawPtr (pointee : ITy) (mutbl : IMutability)
  | ref (region : String) (pointee : ITy) (mutbl : IMutability)
  | fnDef (defId : Nat) (args : List IGenericArg)
  | fnPtr (sig : IPolyFnSig)
  | dynamic (preds : String) (region : String) (dynKind : String)
  | closure (defId : Nat) (args : List IGenericArg)
  | generator (defId : Nat) (args : List IGenericArg) (movability : IMovability)
  | never
  | tuple (fields : List ITy)
  | alias (kind : String) (defId : Nat) (args : List IGenericArg)
  | param (index : Nat) (name : String)
  | bound (debruijn : Nat) (var : Nat)
  | placeholder (p : String)
  | generatorWitness (tys : List ITy)
  | generatorWitnessMIR (defId : Nat) (args : List IGenericArg)
  | infer (v : String)
  | tyError (e : String)

end

/-! ## Decidable structural equality for internal type values

Rust compares internal type values with `==` (structural/value equality of
the interned type).  Lean cannot derive `DecidableEq` for the nested mutual
family above, so we decide equality through an injective encoding into a
plain binary tree of tags. -/

/-- Constructor tags (with all non-recursive payloads) for the encoding. -/
inductive CTag where
  | unitT
  | boolT
  | charT
  | intT (t : IIntTy)
  | uintT (t : IUintTy)
  | floatT (t : IFloatTy)
  | adtT (defId : Nat)
  | foreignT (defId : Nat)
  | strT
  | arrayT (const : String)
  | sliceT
  | rawPtrT (mutbl : IMutability)
  | refT (region : String) (mutbl : IMutability)
  | fnDefT (defId : Nat)
  | fnPtrT (cVariadic : Bool) (unsafety : IUnsafety) (abi : IAbi)
           (boundVars : List IBoundVariableKind)
  | dynamicT (preds : String) (region : String) (dynKind : String)
  | closureT (defId : Nat)
  | generatorT (defId : Nat) (movability : IMovability)
  | neverT
  | tupleT
  | aliasT (kind : String) (defId : Nat)
  | paramT (index : Nat) (name : String)
  | boundT (debruijn : Nat) (var : Nat)
  | placeholderT (p : String)
  | generatorWitnessT
  | generatorWitnessMIRT (defId : Nat)
  | inferT (v : String)
  | errT (e : String)
  | lifetimeT (region : String)
  | tyArgT
  | constT (c : String)
deriving DecidableEq

/-- Binary tree of tags; the target of the injective encoding. -/
inductive Code where
  | leaf (t : CTag)
  | node (l r : Code)
deriving DecidableEq

mutual

def encTy : ITy → Code
  | .bool => .leaf .boolT
  | .char => .leaf .charT
  | .int t => .leaf (.intT t)
  | .uint t => .leaf (.uintT t)
  | .float t => .leaf (.floatT t)
  | .adt d args => .node (.leaf (.adtT d)) (encGAList args)
  | .foreign d => .leaf (.foreignT d)
  | .str => .leaf .strT
  | .array e c => .node (.leaf (.arrayT c)) (encTy e)
  | .slice e => .node (.leaf .sliceT) (encTy e)
  | .rawPtr p m => .node (.leaf (.rawPtrT m)) (encTy p)
  | .ref r p m => .node (.leaf (.refT r m)) (encTy p)
  | .fnDef d args => .node (.leaf (.fnDefT d)) (encGAList args)
  | .fnPtr (.mk (.mk ios cv u a) bvs) =>
      .node (.leaf (.fnPtrT cv u a bvs)) (encTyList ios)
  | .dynamic p r k => .leaf (.dynamicT p r k)
  | .closure d args => .node (.leaf (.closureT d)) (encGAList args)
  | .generator d args m => .node (.leaf (.generatorT d m)) (encGAList args)
  | .never => .leaf .neverT
  | .tuple fs => .node (.leaf .tupleT) (encTyList fs)
  | .alias k d args => .node (.leaf (.aliasT k d)) (encGAList args)
  | .param i n => .leaf (.paramT i n)
  | .bound d v => .leaf (.boundT d v)
  | .placeholder p => .leaf (.placeholderT p)
  | .generatorWitness tys => .node (.leaf .generatorWitnessT) (encTyList tys)
  | .generatorWitnessMIR d args =>
      .node (.leaf (.generatorWitnessMIRT d)) (encGAList args)
  | .infer v => .leaf (.inferT v)
  | .tyError e => .leaf (.errT e)

def encTyList : List ITy → Code
  | [] => .leaf .unitT
  | x :: xs => .node (encTy x) (encTyList xs)

def encGA : IGenericArg → Code
  | .lifetime r => .leaf (.lifetimeT r)
  | .tyArg t => .node (.leaf .tyArgT) (encTy t)
  | .constArg c => .leaf (.constT c)

def encGAList : List IGenericArg → Code
  | [] => .leaf .unitT
  | x :: xs => .node (encGA x) (encGAList xs)

end

/-- Decoding of leaf-encoded internal type constructors. -/
def decTyLeaf : CTag → Option ITy
  | .boolT => some .bool
  | .charT => some .char
  | .intT t => some (.int t)
  | .uintT t => some (.uint t)
  | .floatT t => some (.float t)
  | .foreignT d => some (.foreign d)
  | .strT => some .str
  | .dynamicT p r k => some (.dynamic p r k)
  | .neverT => some .never
  | .paramT i n => some (.param i n)
  | .boundT d v => some (.bound d v)
  | .placeholderT p => some (.placeholder p)
  | .inferT v => some (.infer v)
  | .errT e => some (.tyError e)
  | _ => none

mutual

def decTy : Code → Option ITy
  | .leaf tag => decTyLeaf tag
  | .node l rest =>
      match l with
      | .node _ _ => none
      | .leaf tag =>
          match tag with
          | .adtT d => (decGAList rest).map (.adt d)
          | .arrayT c => (decTy rest).map (fun e => .array e c)
          | .sliceT => (decTy rest).map .slice
          | .rawPtrT m => (decTy rest).map (fun p => .rawPtr p m)
          | .refT r m => (decTy rest).map (fun p => .ref r p m)
          | .fnDefT d => (decGAList rest).map (.fnDef d)
          | .fnPtrT cv u a bvs =>
              (decTyList rest).map (fun ios => .fnPtr (.mk (.mk ios cv u a) bvs))
          | .closureT d => (decGAList rest).map (.closure d)
          | .generatorT d m => (decGAList rest).map (fun args => .generator d args m)
          | .tupleT => (decTyList rest).map .tuple
          | .aliasT k d => (decGAList rest).map (.alias k d)
          | .generatorWitnessT => (decTyList rest).map .generatorWitness
          | .generatorWitnessMIRT d => (decGAList rest).map (.generatorWitnessMIR d)
          | _ => none

def decTyList : Code → Option (List ITy)
  | .leaf tag => if tag = .unitT then some [] else none
  | .node a b =>
      match decTy a, decTyList b with
      | some x, some xs => some (x :: xs)
      | _, _ => none

def decGA : Code → Option IGenericArg
  | .leaf tag =>
      match tag with
      | .lifetimeT r => some (.lifetime r)
      | .constT c => some (.constArg c)
      | _ => none
  | .node l rest =>
      match l with
      | .leaf .tyArgT => (decTy rest).map .tyArg
      | _ => none

def decGAList : Code → Option (List IGenericArg)
  | .leaf tag => if tag = .unitT then some [] else none
  | .node a b =>
      match decGA a, decGAList b with
      | some x, some xs => some (x :: xs)
      | _, _ => none

end

mutual

theorem decTy_encTy : (t : ITy) → decTy (encTy t) = some t
  | .bool => rfl
  | .char => rfl
  | .int _ => rfl
  | .uint _ => rfl
  | .float _ => rfl
  | .adt d args => by simp [encTy, decTy, decGAList_encGAList args]
  | .foreign _ => rfl
  | .str => rfl
  | .array e c => by simp [encTy, decTy, decTy_encTy e]
  | .slice e => by simp [encTy, decTy, decTy_encTy e]
  | .rawPtr p m => by simp [encTy, decTy, decTy_encTy p]
  | .ref r p m => by simp [encTy, decTy, decTy_encTy p]
  | .fnDef d args => by simp [encTy, decTy, decGAList_encGAList args]
  | .fnPtr (.mk (.mk ios cv u a) bvs) => by
      simp [encTy, decTy, decTyList_encTyList ios]
  | .dynamic _ _ _ => rfl
  | .closure d args => by simp [encTy, decTy, decGAList_encGAList args]
  | .generator d args m => by simp [encTy, decTy, decGAList_encGAList args]
  | .never => rfl
  | .tuple fs => by simp [encTy, decTy, decTyList_encTyList fs]
  | .alias k d args => by simp [encTy, decTy, decGAList_encGAList args]
  | .param _ _ => rfl
  | .bound _ _ => rfl
  | .placeholder _ => rfl
  | .generatorWitness tys => by simp [encTy, decTy, decTyList_encTyList tys]
  | .generatorWitnessMIR d args => by
      simp [encTy, decTy, decGAList_encGAList args]
  | .infer _ => rfl
  | .tyError _ => rfl

theorem decTyList_encTyList : (l : List ITy) → decTyList (encTyList l) = some l
  | [] => rfl
  | x :: xs => by
      simp [encTyList, decTyList, decTy_encTy x, decTyList_encTyList xs]

theorem decGA_encGA : (a : IGenericArg) → decGA (encGA a) = some a
  | .lifetime _ => rfl
  | .tyArg t => by simp [encGA, decGA, decTy_encTy t]
  | .constArg _ => rfl

theorem decGAList_encGAList :
    (l : List IGenericArg) → decGAList (encGAList l) = some l
  | [] => rfl
  | x :: xs => by
      simp [encGAList, decGAList, decGA_encGA x, decGAList_encGAList xs]

end

theorem encTy_injective : Function.Injective encTy := by
  intro a b h
  have h2 := congrArg decTy h
  rw [decTy_encTy, decTy_encTy] at h2
  exact Option.some.inj h2

instance : DecidableEq ITy := fun a b =>
  if h : encTy a = encTy b then .isTrue (encTy_injective h)
  else .isFalse (fun he => h (he ▸ rfl))

example : (ITy.tuple [.bool, .array .bool "3"])
    = (ITy.tuple [.bool, .array .bool "3"]) := by decide
example : (ITy.tuple [.bool]) ≠ ITy.bool := by decide

/-! ## Stable (output) type representation (`stable_mir::ty`)

The stable shapes reference nested structure via interned handles
(`StableMir.Ty` is a small integer), never by inline copy. -/

namespace StableMir

/-- `stable_mir::ty::Ty(usize)`: an opaque type handle into the session's
intern table. -/
structure Ty where
  idx : Nat
deriving DecidableEq

inductive IntTy where
  | isize | i8 | i16 | i32 | i64 | i128
deriving DecidableEq

inductive UintTy where
  | usize | u8 | u16 | u32 | u64 | u128
deriving DecidableEq

inductive FloatTy where
  | f32 | f64
deriving DecidableEq

/-- `stable_mir::mir::Mutability`. -/
inductive Mutability where
  | not | mut
deriving DecidableEq

inductive Movability where
  | staticM | movable
deriving DecidableEq

/-- `stable_mir::ty::Unsafety`. -/
inductive Unsafety where
  | unsafeK | normal
deriving DecidableEq

/-- `stable_mir::ty::Abi`. -/
inductive Abi where
  | rust
  | c (unwind : Bool)
  | cdecl (unwind : Bool)
  | stdcall (unwind : Bool)
  | fastcall (unwind : Bool)
  | vectorcall (unwind : Bool)
  | thiscall (unwind : Bool)
  | aapcs (unwind : Bool)
  | win64 (unwind : Bool)
  | sysV64 (unwind : Bool)
  | ptxKernel
  | msp430Interrupt
  | x86Interrupt
  | amdGpuKernel
  | efiApi
  | avrInterrupt
  | avrNonBlockingInterrupt
  | cCmseNonSecureCall
  | wasm
  | system (unwind : Bool)
  | rustIntrinsic
  | rustCall
  | platformIntrinsic
  | unadjusted
  | rustCold
deriving DecidableEq

inductive GenericArgKind where
  | lifetime (region : Opaque)
  | type (t : Ty)
  | const (c : Opaque)
deriving DecidableEq

/-- `stable_mir::ty::GenericArgs(Vec<GenericArgKind>)`; order is significant
(positional generic parameter binding). -/
structure GenericArgs where
  args : List GenericArgKind
deriving DecidableEq

inductive BoundTyKind where
  | anon
  | param (def_ : Nat) (name : String)
deriving DecidableEq

inductive BoundRegionKind where
  | brAnon (span : Option Opaque)
  | brNamed (def_ : Nat) (name : String)
  | brEnv
deriving DecidableEq

inductive BoundVariableKind where
  | ty (k : BoundTyKind)
  | region (k : BoundRegionKind)
  | const
deriving DecidableEq

/-- `stable_mir::ty::Binder`. -/
structure Binder (α : Type) where
  value : α
  boundVars : List BoundVariableKind
deriving DecidableEq

structure FnSig where
  inputsAndOutput : List Ty
  cVariadic : Bool
  unsafety : Unsafety
  abi : Abi
deriving DecidableEq

abbrev PolyFnSig := Binder FnSig

inductive RigidTy where
  | bool
  | char
  | int (t : IntTy)
  | uint (t : UintTy)
  | float (t : FloatTy)
  | adt (def_ : Nat) (args : GenericArgs)
  | foreign (def_ : Nat)
  | str
  | array (elem : Ty) (const : Opaque)
  | slice (elem : Ty)
  | rawPtr (pointee : Ty) (mutbl : Mutability)
  | ref (region : Opaque) (pointee : Ty) (mutbl : Mutability)
  | fnDef (def_ : Nat) (args : GenericArgs)
  | fnPtr (sig : PolyFnSig)
  | closure (def_ : Nat) (args : GenericArgs)
  | generator (def_ : Nat) (args : GenericArgs) (movability : Movability)
  | never
  | tuple (fields : List Ty)
deriving DecidableEq

inductive TyKind where
  | rigidTy (r : RigidTy)
deriving DecidableEq

end StableMir

/-! ## The Intern Registry (`Tables` and `Tables::intern_ty`) -/

/-- `Tables` from `rustc_smir/mod.rs` (the `tcx` field, an external compiler
handle, is not part of the interning state and is modelled separately where
needed). -/
structure Tables where
  defIds : List Nat
  types : List ITy
deriving DecidableEq

/-- `Iterator::position`: index of the first element equal to `t`. -/
def listPos {α : Type} [DecidableEq α] (t : α) : List α → Option Nat
  | [] => none
  | x :: xs => if x = t then some 0 else (listPos t xs).map (· + 1)

theorem listPos_eq_none_iff {α : Type} [DecidableEq α] (t : α) (l : List α) :
    listPos t l = none ↔ t ∉ l := by
  induction l with
  | nil => simp [listPos]
  | cons x xs ih =>
      by_cases hx : x = t
      · simp [listPos, hx]
      · simp [listPos, hx, ih, Ne.symm hx]

theorem listPos_getElem? {α : Type} [DecidableEq α] {t : α} {l : List α}
    {i : Nat} (h : listPos t l = some i) : l[i]? = some t := by
  induction l generalizing i with
  | nil => simp [listPos] at h
  | cons x xs ih =>
      by_cases hx : x = t
      · simp [listPos, hx] at h
        subst h
        simp [hx]
      · simp [listPos, hx] at h
        obtain ⟨j, hj, rfl⟩ := h
        simpa using ih hj

theorem listPos_lt_length {α : Type} [DecidableEq α] {t : α} {l : List α}
    {i : Nat} (h : listPos t l = some i) : i < l.length := by
  have := listPos_getElem? h
  exact (List.getElem?_eq_some.mp this).1

theorem listPos_append_left {α : Type} [DecidableEq α] {t : α} {l : List α}
    {i : Nat} (h : listPos t l = some i) (ext : List α) :
    listPos t (l ++ ext) = some i := by
  induction l generalizing i with
  | nil => simp [listPos] at h
  | cons x xs ih =>
      by_cases hx : x = t
      · simp [listPos, hx] at h ⊢
        exact h
      · simp [listPos, hx] at h ⊢
        obtain ⟨j, hj, rfl⟩ := h
        exact ⟨j, ih hj, rfl⟩

theorem listPos_append_self {α : Type} [DecidableEq α] {t : α} {l : List α}
    (h : t ∉ l) : listPos t (l ++ [t]) = some l.length := by
  induction l with
  | nil => simp [listPos]
  | cons x xs ih =>
      simp only [List.mem_cons, not_or] at h
      have hxt : ¬x = t := fun he => h.1 he.symm
      simp [listPos, hxt, ih h.2]

/-- `Tables::intern_ty`: return the handle of the first structurally-equal
previously interned type, otherwise append and mint `len - 1 + 1`'s
predecessor, i.e. the new length minus one. -/
def Tables.intern_ty (s : Tables) (t : ITy) : StableMir.Ty × Tables :=
  match listPos t s.types with
  | some i => (⟨i⟩, s)
  | none => (⟨s.types.length⟩, { s with types := s.types ++ [t] })

theorem intern_ty_types_eq (s : Tables) (t : ITy) :
    (s.intern_ty t).2.types = s.types ∨
      (s.intern_ty t).2.types = s.types ++ [t] := by
  unfold Tables.intern_ty
  cases h : listPos t s.types with
  | none => right; rfl
  | some i => left; rfl

theorem intern_ty_pos (s : Tables) (t : ITy) :
    listPos t (s.intern_ty t).2.types = some (s.intern_ty t).1.idx := by
  unfold Tables.intern_ty
  cases h : listPos t s.types with
  | none =>
      simp only []
      exact listPos_append_self ((listPos_eq_none_iff t s.types).mp h)
  | some i =>
      simpa using h

theorem intern_ty_resolve (s : Tables) (t : ITy) :
    (s.intern_ty t).2.types[(s.intern_ty t).1.idx]? = some t :=
  listPos_getElem? (intern_ty_pos s t)

theorem intern_ty_lt (s : Tables) (t : ITy) :
    (s.intern_ty t).1.idx < (s.intern_ty t).2.types.length :=
  listPos_lt_length (intern_ty_pos s t)

theorem intern_ty_fresh (s : Tables) (t : ITy) (h : t ∉ s.types) :
    s.intern_ty t = (⟨s.types.length⟩, { s with types := s.types ++ [t] }) := by
  unfold Tables.intern_ty
  rw [(listPos_eq_none_iff t s.types).mpr h]

theorem intern_ty_found (s : Tables) (t : ITy) {i : Nat}
    (h : listPos t s.types = some i) : s.intern_ty t = (⟨i⟩, s) := by
  unfold Tables.intern_ty
  rw [h]

/-- Interning a sequence of types in order (as `mir_body` does for locals). -/
def internManyTys (s : Tables) : List ITy → List StableMir.Ty × Tables
  | [] => ([], s)
  | t :: ts =>
      let p := s.intern_ty t
      let q := internManyTys p.2 ts
      (p.1 :: q.1, q.2)

theorem intern_ty_types_append (s : Tables) (t : ITy) :
    ∃ ext, (s.intern_ty t).2.types = s.types ++ ext := by
  rcases intern_ty_types_eq s t with h | h
  · exact ⟨[], by simpa using h⟩
  · exact ⟨[t], h⟩

theorem internManyTys_types_append (s : Tables) (ts : List ITy) :
    ∃ ext, (internManyTys s ts).2.types = s.types ++ ext := by
  induction ts generalizing s with
  | nil => exact ⟨[], by simp [internManyTys]⟩
  | cons t ts ih =>
      obtain ⟨e1, h1⟩ := intern_ty_types_append s t
      obtain ⟨e2, h2⟩ := ih (s.intern_ty t).2
      exact ⟨e1 ++ e2, by simp [internManyTys, h2, h1]⟩

theorem intern_ty_mem_iff (s : Tables) (t : ITy) (x : ITy) :
    x ∈ (s.intern_ty t).2.types ↔ x ∈ s.types ∨ x = t := by
  unfold Tables.intern_ty
  cases h : listPos t s.types with
  | none => simp
  | some i =>
      have : t ∈ s.types := by
        have := listPos_getElem? h
        exact List.getElem?_mem this
      simp only []
      constructor
      · intro hx; exact Or.inl hx
      · rintro (hx | rfl)
        · exact hx
        · exact this

theorem intern_ty_nodup (s : Tables) (t : ITy) (h : s.types.Nodup) :
    (s.intern_ty t).2.types.Nodup := by
  unfold Tables.intern_ty
  cases hp : listPos t s.types with
  | none =>
      simp only []
      have hmem := (listPos_eq_none_iff t s.types).mp hp
      simpa [List.nodup_append] using ⟨h, hmem⟩
  | some i => exact h

theorem internManyTys_mem_iff (s : Tables) (ts : List ITy) (x : ITy) :
    x ∈ (internManyTys s ts).2.types ↔ x ∈ s.types ∨ x ∈ ts := by
  induction ts generalizing s with
  | nil => simp [internManyTys]
  | cons t ts ih =>
      simp only [internManyTys, List.mem_cons]
      rw [ih, intern_ty_mem_iff]
      tauto

theorem internManyTys_nodup (s : Tables) (ts : List ITy) (h : s.types.Nodup) :
    (internManyTys s ts).2.types.Nodup := by
  induction ts generalizing s with
  | nil => exact h
  | cons t ts ih => exact ih _ (intern_ty_nodup s t h)

/-! ## Conversion Engine: type side (`Stable` impls feeding `Stable for Ty`) -/

def IIntTy.stable : IIntTy → StableMir.IntTy
  | .isize => .isize
  | .i8 => .i8
  | .i16 => .i16
  | .i32 => .i32
  | .i64 => .i64
  | .i128 => .i128

def IUintTy.stable : IUintTy → StableMir.UintTy
  | .usize => .usize
  | .u8 => .u8
  | .u16 => .u16
  | .u32 => .u32
  | .u64 => .u64
  | .u128 => .u128

def IFloatTy.stable : IFloatTy → StableMir.FloatTy
  | .f32 => .f32
  | .f64 => .f64

/-- `Stable for mir::Mutability`. -/
def IMutability.stable : IMutability → StableMir.Mutability
  | .not => .not
  | .mut => .mut

/-- The inline `hir::Movability` match inside `Stable for Ty`. -/
def IMovability.stable : IMovability → StableMir.Movability
  | .staticM => .staticM
  | .movable => .movable

/-- The inline `hir::Unsafety` match inside `Stable for ty::FnSig`. -/
def IUnsafety.stableTy : IUnsafety → StableMir.Unsafety
  | .normal => .normal
  | .unsafeK => .unsafeK

/-- The inline `abi::Abi` match inside `Stable for ty::FnSig`. -/
def IAbi.stable : IAbi → StableMir.Abi
  | .rust => .rust
  | .c u => .c u
  | .cdecl u => .cdecl u
  | .stdcall u => .stdcall u
  | .fastcall u => .fastcall u
  | .vectorcall u => .vectorcall u
  | .thiscall u => .thiscall u
  | .aapcs u => .aapcs u
  | .win64 u => .win64 u
  | .sysV64 u => .sysV64 u
  | .ptxKernel => .ptxKernel
  | .msp430Interrupt => .msp430Interrupt
  | .x86Interrupt => .x86Interrupt
  | .amdGpuKernel => .amdGpuKernel
  | .efiApi => .efiApi
  | .avrInterrupt => .avrInterrupt
  | .avrNonBlockingInterrupt => .avrNonBlockingInterrupt
  | .cCmseNonSecureCall => .cCmseNonSecureCall
  | .wasm => .wasm
  | .system u => .system u
  | .rustIntrinsic => .rustIntrinsic
  | .rustCall => .rustCall
  | .platformIntrinsic => .platformIntrinsic
  | .unadjusted => .unadjusted
  | .rustCold => .rustCold

/-- `Stable for ty::BoundVariableKind`. -/
def IBoundVariableKind.stable : IBoundVariableKind → StableMir.BoundVariableKind
  | .ty .anon => .ty .anon
  | .ty (.param d s) => .ty (.param (idDerive d) s)
  | .region (.brAnon sp) => .region (.brAnon (sp.map mkOpaque))
  | .region (.brNamed d s) => .region (.brNamed (idDerive d) s)
  | .region .brEnv => .region .brEnv
  | .const => .const

/-- `Stable for ty::GenericArgs`: left-to-right map, interning every type
argument and wrapping lifetimes/consts as opaque values. -/
def genericArgsStableList (tables : Tables) :
    List IGenericArg → List StableMir.GenericArgKind × Tables
  | [] => ([], tables)
  | .lifetime r :: rest =>
      let q := genericArgsStableList tables rest
      (.lifetime (mkOpaque r) :: q.1, q.2)
  | .tyArg t :: rest =>
      let p := tables.intern_ty t
      let q := genericArgsStableList p.2 rest
      (.type p.1 :: q.1, q.2)
  | .constArg c :: rest =>
      let q := genericArgsStableList tables rest
      (.const (mkOpaque c) :: q.1, q.2)

def genericArgsStable (args : List IGenericArg) (tables : Tables) :
    StableMir.GenericArgs × Tables :=
  let q := genericArgsStableList tables args
  (⟨q.1⟩, q.2)

/-- `Stable for ty::FnSig`: interns every input/output type and converts the
flags and calling-convention tag 1:1. -/
def IFnSig.stable (sig : IFnSig) (tables : Tables) : StableMir.FnSig × Tables :=
  match sig with
  | .mk ios cv u a =>
      let p := internManyTys tables ios
      ({ inputsAndOutput := p.1, cVariadic := cv,
         unsafety := u.stableTy, abi := a.stable }, p.2)

/-- `Stable for ty::PolyFnSig`. -/
def IPolyFnSig.stable (sig : IPolyFnSig) (tables : Tables) :
    StableMir.PolyFnSig × Tables :=
  match sig with
  | .mk value bvs =>
      let p := value.stable tables
      ({ value := p.1, boundVars := bvs.map IBoundVariableKind.stable }, p.2)

/-- `Stable for Ty` (`Ty::stable`): the exhaustive case split over internal
type kinds.  `Dynamic`, `Alias`, `Param`, `Bound` are `todo!()`;
`Placeholder`, `GeneratorWitness`, `GeneratorWitnessMIR`, `Infer`, `Error`
are `unreachable!()`. -/
def ITy.stable (t : ITy) (tables : Tables) :
    Except ConvErr (StableMir.TyKind × Tables) :=
  match t with
  | .bool => .ok (.rigidTy .bool, tables)
  | .char => .ok (.rigidTy .char, tables)
  | .int it => .ok (.rigidTy (.int it.stable), tables)
  | .uint ut => .ok (.rigidTy (.uint ut.stable), tables)
  | .float ft => .ok (.rigidTy (.float ft.stable), tables)
  | .adt d args =>
      let p := genericArgsStable args tables
      .ok (.rigidTy (.adt (idDerive d) p.1), p.2)
  | .foreign d => .ok (.rigidTy (.foreign (idDerive d)), tables)
  | .str => .ok (.rigidTy .str, tables)
  | .array e c =>
      let p := tables.intern_ty e
      .ok (.rigidTy (.array p.1 (mkOpaque c)), p.2)
  | .slice e =>
      let p := tables.intern_ty e
      .ok (.rigidTy (.slice p.1), p.2)
  | .rawPtr pt m =>
      let p := tables.intern_ty pt
      .ok (.rigidTy (.rawPtr p.1 m.stable), p.2)
  | .ref r pt m =>
      let p := tables.intern_ty pt
      .ok (.rigidTy (.ref (mkOpaque r) p.1 m.stable), p.2)
  | .fnDef d args =>
      let p := genericArgsStable args tables
      .ok (.rigidTy (.fnDef (idDerive d) p.1), p.2)
  | .fnPtr sig =>
      let p := sig.stable tables
      .ok (.rigidTy (.fnPtr p.1), p.2)
  | .dynamic _ _ _ => .error .notYetImplemented
  | .closure d args =>
      let p := genericArgsStable args tables
      .ok (.rigidTy (.closure (idDerive d) p.1), p.2)
  | .generator d args m =>
      let p := genericArgsStable args tables
      .ok (.rigidTy (.generator (idDerive d) p.1 m.stable), p.2)
  | .never => .ok (.rigidTy .never, tables)
  | .tuple fields =>
      let p := internManyTys tables fields
      .ok (.rigidTy (.tuple p.1), p.2)
  | .alias _ _ _ => .error .notYetImplemented
  | .param _ _ => .error .notYetImplemented
  | .bound _ _ => .error .notYetImplemented
  | .placeholder _ => .error .invariantViolated
  | .generatorWitness _ => .error .invariantViolated
  | .generatorWitnessMIR _ _ => .error .invariantViolated
  | .infer _ => .error .invariantViolated
  | .tyError _ => .error .invariantViolated

/-- `Context::ty_kind`: resolve a handle through the intern table and convert
its structural kind.  A handle never minted in this session is a programming
error; the model therefore demands an in-bounds proof. -/
def Tables.ty_kind (s : Tables) (h : StableMir.Ty)
    (hh : h.idx < s.types.length) :
    Except ConvErr (StableMir.TyKind × Tables) :=
  ITy.stable (s.types.get ⟨h.idx, hh⟩) s

/-- Internal type kinds this layer supports (neither `todo!()` nor
`unreachable!()`). -/
def ITy.supported : ITy → Bool
  | .dynamic _ _ _ | .alias _ _ _ | .param _ _ | .bound _ _
  | .placeholder _ | .generatorWitness _ | .generatorWitnessMIR _ _
  | .infer _ | .tyError _ => false
  | _ => true

/-- Internal type kinds mapped to `todo!()` (not yet modeled). -/
def ITy.notYetImplementedKind : ITy → Bool
  | .dynamic _ _ _ | .alias _ _ _ | .param _ _ | .bound _ _ => true
  | _ => false

/-- Internal type kinds mapped to `unreachable!()` (assumed impossible at
this IR stage). -/
def ITy.assumedUnreachableKind : ITy → Bool
  | .placeholder _ | .generatorWitness _ | .generatorWitnessMIR _ _
  | .infer _ | .tyError _ => true
  | _ => false

/-! ## Query Surface: crates (`local_crate`, `external_crates`, `find_crate`) -/

/-- `stable_mir::Crate`. -/
structure StableMir.Crate where
  id : Nat
  name : String
  isLocal : Bool
deriving DecidableEq

/-- The slice of the external compiler context (`TyCtxt`) consumed by the
crate queries: the external crate numbers (`tcx.crates(())`) and the
crate-name query (`tcx.crate_name`). -/
structure CrateCtxt where
  crates : List Nat
  crateName : Nat → String

/-- `rustc_span::def_id::LOCAL_CRATE` is crate number `0`. -/
def LOCAL_CRATE : Nat := 0

/-- `smir_crate`: build a stable mir crate from a given crate number. -/
def smir_crate (tcx : CrateCtxt) (crateNum : Nat) : StableMir.Crate :=
  { id := crateNum, name := tcx.crateName crateNum,
    isLocal := crateNum == LOCAL_CRATE }

/-- `Context::local_crate`. -/
def local_crate (tcx : CrateCtxt) : StableMir.Crate :=
  smir_crate tcx LOCAL_CRATE

/-- `Context::external_crates`. -/
def external_crates (tcx : CrateCtxt) : List StableMir.Crate :=
  tcx.crates.map (smir_crate tcx)

/-- `Iterator::find_map`. -/
def findMap {α β : Type} (f : α → Option β) : List α → Option β
  | [] => none
  | x :: xs =>
      match f x with
      | some y => some y
      | none => findMap f xs

/-- `Context::find_crate`: linear search over `[LOCAL_CRATE]` chained with
the external crates, returning the first crate whose name equals the
argument exactly. -/
def find_crate (tcx : CrateCtxt) (name : String) : Option StableMir.Crate :=
  findMap
    (fun crateNum =>
      if name = tcx.crateName crateNum then some (smir_crate tcx crateNum)
      else none)
    (LOCAL_CRATE :: tcx.crates)

/-! ## Stable MIR shapes (`stable_mir::mir`) -/

namespace StableMir

structure Place where
  localIdx : Nat
  projection : String
deriving DecidableEq

inductive Operand where
  | copy (place : Place)
  | move (place : Place)
  | constant (c : String)
deriving DecidableEq

inductive MutBorrowKind where
  | default | twoPhaseBorrow | closureCapture
deriving DecidableEq

inductive BorrowKind where
  | shared
  | shallow
  | mutK (kind : MutBorrowKind)
deriving DecidableEq

inductive BinOp where
  | add | addUnchecked | sub | subUnchecked | mul | mulUnchecked
  | div | rem | bitXor | bitAnd | bitOr
  | shl | shlUnchecked | shr | shrUnchecked
  | eq | lt | le | ne | ge | gt | offset
deriving DecidableEq

inductive UnOp where
  | not | neg
deriving DecidableEq

inductive AsyncGeneratorKind where
  | block | closure | fn
deriving DecidableEq

inductive GeneratorKind where
  | async (k : AsyncGeneratorKind)
  | gen
deriving DecidableEq

inductive UnwindAction where
  | continueK
  | unreachableK
  | terminate
  | cleanup (bb : Nat)
deriving DecidableEq

inductive AssertMessage where
  | boundsCheck (len index : Operand)
  | overflow (op : BinOp) (a b : Operand)
  | overflowNeg (a : Operand)
  | divisionByZero (a : Operand)
  | remainderByZero (a : Operand)
  | resumedAfterReturn (g : GeneratorKind)
  | resumedAfterPanic (g : GeneratorKind)
  | misalignedPointerDereference (required found : Operand)
deriving DecidableEq

structure InlineAsmOperand where
  inValue : Option Operand
  outPlace : Option Place
  rawRpr : String
deriving DecidableEq

structure SwitchTarget where
  value : Nat
  target : Nat
deriving DecidableEq

inductive Rvalue where
  | use (op : Operand)
  | ref (region : Opaque) (kind : BorrowKind) (place : Place)
  | threadLocalRef (item : Nat)
  | addressOf (mutbl : Mutability) (place : Place)
  | len (place : Place)
  | binaryOp (op : BinOp) (a b : Operand)
  | checkedBinaryOp (op : BinOp) (a b : Operand)
  | unaryOp (op : UnOp) (a : Operand)
  | discriminant (place : Place)
  | copyForDeref (place : Place)
deriving DecidableEq

inductive Statement where
  | assign (place : Place) (rvalue : Rvalue)
  | nop
deriving DecidableEq

inductive Terminator where
  | goto (target : Nat)
  | switchInt (discr : Operand) (targets : List SwitchTarget) (otherwise : Nat)
  | resume
  | abort
  | ret
  | unreachableK
  | drop (place : Place) (target : Nat) (unwind : UnwindAction)
  | call (func : Operand) (args : List Operand) (destination : Place)
         (target : Option Nat) (unwind : UnwindAction)
  | assert (cond : Operand) (expected : Bool) (msg : AssertMessage)
           (target : Nat) (unwind : UnwindAction)
  | inlineAsm (template : String) (operands : List InlineAsmOperand)
              (options : String) (lineSpans : String)
              (destination : Option Nat) (unwind : UnwindAction)
deriving DecidableEq

structure BasicBlock where
  statements : List Statement
  terminator : Terminator
deriving DecidableEq

structure Body where
  blocks : List BasicBlock
  locals : List Ty
deriving DecidableEq

end StableMir

/-! ## Internal MIR shapes (`rustc_middle::mir`)

Payloads that the conversion only renders or ignores are modelled as their
renderings (`String`); definition identities are numeric `DefId`s. -/

/-- Internal `mir::Place`; the projection chain is only ever rendered
(`format!("{:?}", self.projection)`), so it is modelled as its rendering. -/
structure IPlace where
  localIdx : Nat
  projection : String
deriving DecidableEq

/-- Internal `mir::Operand`; a constant operand is only ever rendered
(`c.to_string()`), so it is modelled as its rendering. -/
inductive IOperand where
  | copy (place : IPlace)
  | move (place : IPlace)
  | constant (c : String)
deriving DecidableEq

inductive IMutBorrowKind where
  | default | twoPhaseBorrow | closureCapture
deriving DecidableEq

inductive IBorrowKind where
  | shared
  | shallow
  | mutK (kind : IMutBorrowKind)
deriving DecidableEq

inductive IBinOp where
  | add | addUnchecked | sub | subUnchecked | mul | mulUnchecked
  | div | rem | bitXor | bitAnd | bitOr
  | shl | shlUnchecked | shr | shrUnchecked
  | eq | lt | le | ne | ge | gt | offset
deriving DecidableEq

inductive IUnOp where
  | not | neg
deriving DecidableEq

inductive IAsyncGeneratorKind where
  | block | closure | fn
deriving DecidableEq

inductive IGeneratorKind where
  | async (k : IAsyncGeneratorKind)
  | gen
deriving DecidableEq

inductive IPointerCoercion where
  | reifyFnPointer
  | unsafeFnPointer
  | closureFnPointer (u : IUnsafety)
  | mutToConstPointer
  | arrayToPointer
  | unsize
deriving DecidableEq

inductive ICastKind where
  | pointerExposeAddress
  | pointerFromExposedAddress
  | pointerCoercion (c : IPointerCoercion)
  | dynStar
  | intToInt
  | floatToInt
  | floatToFloat
  | intToFloat
  | ptrToPtr
  | fnPtrToPtr
  | transmute
deriving DecidableEq

inductive INullOp where
  | sizeOf
  | alignOf
  | offsetOf (indices : List Nat)
deriving DecidableEq

inductive IUnwindAction where
  | continueK
  | unreachableK
  | terminate
  | cleanup (bb : Nat)
deriving DecidableEq

inductive IAssertMessage where
  | boundsCheck (len index : IOperand)
  | overflow (op : IBinOp) (a b : IOperand)
  | overflowNeg (a : IOperand)
  | divisionByZero (a : IOperand)
  | remainderByZero (a : IOperand)
  | resumedAfterReturn (g : IGeneratorKind)
  | resumedAfterPanic (g : IGeneratorKind)
  | misalignedPointerDereference (required found : IOperand)
deriving DecidableEq

inductive IInlineAsmOperand where
  | inOp (reg : String) (value : IOperand)
  | out (reg : String) (late : Bool) (place : Option IPlace)
  | inOut (reg : String) (late : Bool) (inValue : IOperand)
          (outPlace : Option IPlace)
  | constOp (value : String)
  | symFn (value : String)
  | symStatic (defId : Nat)
deriving DecidableEq

/-- Internal `mir::TerminatorKind` (a `mir::Terminator`'s `source_info` is
never consulted by the conversion and is dropped from the model).
`SwitchTargets` is modelled as its `(value, target)` pairs plus the
`otherwise` target. -/
inductive ITerminator where
  | goto (target : Nat)
  | switchInt (discr : IOperand) (targets : List (Nat × Nat)) (otherwise : Nat)
  | resume
  | terminate
  | ret
  | unreachableK
  | drop (place : IPlace) (target : Nat) (unwind : IUnwindAction)
         (replace : Bool)
  | call (func : IOperand) (args : List IOperand) (destination : IPlace)
         (target : Option Nat) (unwind : IUnwindAction)
         (callSource : String) (fnSpan : String)
  | assert (cond : IOperand) (expected : Bool) (msg : IAssertMessage)
           (target : Nat) (unwind : IUnwindAction)
  | inlineAsm (template : String) (operands : List IInlineAsmOperand)
              (options : String) (lineSpans : String)
              (destination : Option Nat) (unwind : IUnwindAction)
  | yieldK (value : IOperand) (resume : Nat) (resumeArg : IPlace)
           (dropT : Option Nat)
  | generatorDrop
  | falseEdge (realTarget : Nat) (imaginaryTarget : Nat)
  | falseUnwind (realTarget : Nat) (unwind : IUnwindAction)
deriving DecidableEq

/-- Internal `mir::Rvalue`. -/
inductive IRvalue where
  | use (op : IOperand)
  | repeatR (op : IOperand) (count : String)
  | ref (region : String) (kind : IBorrowKind) (place : IPlace)
  | threadLocalRef (defId : Nat)
  | addressOf (mutbl : IMutability) (place : IPlace)
  | len (place : IPlace)
  | cast (kind : ICastKind) (op : IOperand) (ty : ITy)
  | binaryOp (op : IBinOp) (a b : IOperand)
  | checkedBinaryOp (op : IBinOp) (a b : IOperand)
  | nullaryOp (op : INullOp) (ty : ITy)
  | unaryOp (op : IUnOp) (a : IOperand)
  | discriminant (place : IPlace)
  | aggregate (kind : String) (ops : List IOperand)
  | shallowInitBox (op : IOperand) (ty : ITy)
  | copyForDeref (place : IPlace)
deriving DecidableEq

/-- Internal `mir::StatementKind`; payloads of unconverted kinds are
modelled as renderings. -/
inductive IStatement where
  | assign (place : IPlace) (rvalue : IRvalue)
  | fakeRead (cause : String) (place : IPlace)
  | setDiscriminant (place : IPlace) (variantIndex : Nat)
  | deinit (place : IPlace)
  | storageLive (localIdx : Nat)
  | storageDead (localIdx : Nat)
  | retag (kind : String) (place : IPlace)
  | placeMention (place : IPlace)
  | ascribeUserType (place : String) (variance : String)
  | coverage (kind : String)
  | intrinsic (i : String)
  | constEvalCounter
  | nop
deriving DecidableEq

/-- Internal `mir::BasicBlockData`. -/
structure IBasicBlock where
  statements : List IStatement
  terminator : ITerminator
deriving DecidableEq

/-- Internal `mir::Body`, reduced to what `Context::mir_body` consumes:
basic blocks in order, and the type of each local declaration in order. -/
structure IBody where
  basicBlocks : List IBasicBlock
  localDecls : List ITy
deriving DecidableEq

/-! ## Conversion Engine: MIR side (`Stable` impls for mir shapes)

None of the MIR conversions interns types (only `mir_body`'s locals do), so
the `tables` parameter threaded by the source is omitted where it is unused. -/

/-- `Stable for mir::Place`: `local.as_usize()` plus the rendered
projection chain. -/
def IPlace.stable (p : IPlace) : StableMir.Place :=
  { localIdx := p.localIdx, projection := p.projection }

/-- `Stable for mir::Operand`. -/
def IOperand.stable : IOperand → StableMir.Operand
  | .copy place => .copy place.stable
  | .move place => .move place.stable
  | .constant c => .constant c

/-- `Stable for mir::MutBorrowKind`. -/
def IMutBorrowKind.stable : IMutBorrowKind → StableMir.MutBorrowKind
  | .default => .default
  | .twoPhaseBorrow => .twoPhaseBorrow
  | .closureCapture => .closureCapture

/-- `Stable for mir::BorrowKind`. -/
def IBorrowKind.stable : IBorrowKind → StableMir.BorrowKind
  | .shared => .shared
  | .shallow => .shallow
  | .mutK kind => .mutK kind.stable

/-- `Stable for mir::BinOp`. -/
def IBinOp.stable : IBinOp → StableMir.BinOp
  | .add => .add
  | .addUnchecked => .addUnchecked
  | .sub => .sub
  | .subUnchecked => .subUnchecked
  | .mul => .mul
  | .mulUnchecked => .mulUnchecked
  | .div => .div
  | .rem => .rem
  | .bitXor => .bitXor
  | .bitAnd => .bitAnd
  | .bitOr => .bitOr
  | .shl => .shl
  | .shlUnchecked => .shlUnchecked
  | .shr => .shr
  | .shrUnchecked => .shrUnchecked
  | .eq => .eq
  | .lt => .lt
  | .le => .le
  | .ne => .ne
  | .ge => .ge
  | .gt => .gt
  | .offset => .offset

/-- `Stable for mir::UnOp`. -/
def IUnOp.stable : IUnOp → StableMir.UnOp
  | .not => .not
  | .neg => .neg

/-- `Stable for hir::GeneratorKind`. -/
def IGeneratorKind.stable : IGeneratorKind → StableMir.GeneratorKind
  | .async .block => .async .block
  | .async .closure => .async .closure
  | .async .fn => .async .fn
  | .gen => .gen

/-- `Stable for mir::UnwindAction`. -/
def IUnwindAction.stable : IUnwindAction → StableMir.UnwindAction
  | .continueK => .continueK
  | .unreachableK => .unreachableK
  | .terminate => .terminate
  | .cleanup bb => .cleanup bb

/-- `Stable for mir::AssertMessage`. -/
def IAssertMessage.stable : IAssertMessage → StableMir.AssertMessage
  | .boundsCheck len index => .boundsCheck len.stable index.stable
  | .overflow op a b => .overflow op.stable a.stable b.stable
  | .overflowNeg a => .overflowNeg a.stable
  | .divisionByZero a => .divisionByZero a.stable
  | .remainderByZero a => .remainderByZero a.stable
  | .resumedAfterReturn g => .resumedAfterReturn g.stable
  | .resumedAfterPanic g => .resumedAfterPanic g.stable
  | .misalignedPointerDereference required found =>
      .misalignedPointerDereference required.stable found.stable

/-- Modelled from the spec: the black-box stringifier
(`format!("{:?}", self)`) that fills `raw_rpr` with the rendering of the
whole internal inline-asm operand; modelled as a constructor-level
rendering. -/
def IInlineAsmOperand.render : IInlineAsmOperand → String
  | .inOp reg _ => "In " ++ reg
  | .out reg _ _ => "Out " ++ reg
  | .inOut reg _ _ _ => "InOut " ++ reg
  | .constOp v => "Const " ++ v
  | .symFn v => "SymFn " ++ v
  | .symStatic d => "SymStatic " ++ toString d

/-- `Stable for mir::InlineAsmOperand`: extracts the in-value and out-place
(if any) and keeps the rendered whole. -/
def IInlineAsmOperand.stable (op : IInlineAsmOperand) :
    StableMir.InlineAsmOperand :=
  match op with
  | .inOp _ value =>
      { inValue := some value.stable, outPlace := none, rawRpr := op.render }
  | .out _ _ place =>
      { inValue := none, outPlace := place.map IPlace.stable,
        rawRpr := op.render }
  | .inOut _ _ inValue outPlace =>
      { inValue := some inValue.stable,
        outPlace := outPlace.map IPlace.stable, rawRpr := op.render }
  | .constOp _ => { inValue := none, outPlace := none, rawRpr := op.render }
  | .symFn _ => { inValue := none, outPlace := none, rawRpr := op.render }
  | .symStatic _ => { inValue := none, outPlace := none, rawRpr := op.render }

/-- `Stable for mir::Rvalue`: `Repeat`, `Cast`, `NullaryOp`, `Aggregate` and
`ShallowInitBox` are `todo!()`. -/
def IRvalue.stable : IRvalue → Except ConvErr StableMir.Rvalue
  | .use op => .ok (.use op.stable)
  | .repeatR _ _ => .error .notYetImplemented
  | .ref region kind place =>
      .ok (.ref (mkOpaque region) kind.stable place.stable)
  | .threadLocalRef defId => .ok (.threadLocalRef (idDerive defId))
  | .addressOf mutbl place => .ok (.addressOf mutbl.stable place.stable)
  | .len place => .ok (.len place.stable)
  | .cast _ _ _ => .error .notYetImplemented
  | .binaryOp op a b => .ok (.binaryOp op.stable a.stable b.stable)
  | .checkedBinaryOp op a b =>
      .ok (.checkedBinaryOp op.stable a.stable b.stable)
  | .nullaryOp _ _ => .error .notYetImplemented
  | .unaryOp op a => .ok (.unaryOp op.stable a.stable)
  | .discriminant place => .ok (.discriminant place.stable)
  | .aggregate _ _ => .error .notYetImplemented
  | .shallowInitBox _ _ => .error .notYetImplemented
  | .copyForDeref place => .ok (.copyForDeref place.stable)

/-- `Stable for mir::Statement`: `Assign` and `Nop` convert; every other
statement kind is `todo!()`. -/
def IStatement.stable : IStatement → Except ConvErr StableMir.Statement
  | .assign place rvalue =>
      match rvalue.stable with
      | .error e => .error e
      | .ok rv => .ok (.assign place.stable rv)
  | .fakeRead _ _ => .error .notYetImplemented
  | .setDiscriminant _ _ => .error .notYetImplemented
  | .deinit _ => .error .notYetImplemented
  | .storageLive _ => .error .notYetImplemented
  | .storageDead _ => .error .notYetImplemented
  | .retag _ _ => .error .notYetImplemented
  | .placeMention _ => .error .notYetImplemented
  | .ascribeUserType _ _ => .error .notYetImplemented
  | .coverage _ => .error .notYetImplemented
  | .intrinsic _ => .error .notYetImplemented
  | .constEvalCounter => .error .notYetImplemented
  | .nop => .ok .nop

/-- `Stable for mir::Terminator`: `Yield`, `GeneratorDrop`, `FalseEdge` and
`FalseUnwind` are `unreachable!()` (asserted to never appear in the
representation this layer consumes). -/
def ITerminator.stable : ITerminator → Except ConvErr StableMir.Terminator
  | .goto target => .ok (.goto target)
  | .switchInt discr targets otherwise =>
      .ok (.switchInt discr.stable
        (targets.map fun vt => { value := vt.1, target := vt.2 }) otherwise)
  | .resume => .ok .resume
  | .terminate => .ok .abort
  | .ret => .ok .ret
  | .unreachableK => .ok .unreachableK
  | .drop place target unwind _ =>
      .ok (.drop place.stable target unwind.stable)
  | .call func args destination target unwind _ _ =>
      .ok (.call func.stable (args.map IOperand.stable) destination.stable
        target unwind.stable)
  | .assert cond expected msg target unwind =>
      .ok (.assert cond.stable expected msg.stable target unwind.stable)
  | .inlineAsm template operands options lineSpans destination unwind =>
      .ok (.inlineAsm template (operands.map IInlineAsmOperand.stable)
        options lineSpans destination unwind.stable)
  | .yieldK _ _ _ _ => .error .invariantViolated
  | .generatorDrop => .error .invariantViolated
  | .falseEdge _ _ => .error .invariantViolated
  | .falseUnwind _ _ => .error .invariantViolated

/-- Effect-free `mapM` over `Except`: stops at the first failing element,
preserving order. -/
def mapME {α β : Type} (f : α → Except ConvErr β) :
    List α → Except ConvErr (List β)
  | [] => .ok []
  | x :: xs =>
      match f x with
      | .error e => .error e
      | .ok y =>
          match mapME f xs with
          | .error e => .error e
          | .ok ys => .ok (y :: ys)

/-- One basic block of `Context::mir_body`: the terminator is converted
first (source field order), then the statements in order. -/
def IBasicBlock.stable (blk : IBasicBlock) :
    Except ConvErr StableMir.BasicBlock :=
  match blk.terminator.stable with
  | .error e => .error e
  | .ok t =>
      match mapME IStatement.stable blk.statements with
      | .error e => .error e
      | .ok sts => .ok { statements := sts, terminator := t }

/-- `Context::mir_body` after the item's internal body has been fetched
(`item → DefId → optimized_mir` is Identity Derivation plus an external
compiler query): converts every block, then interns every local's type. -/
def mir_body (tables : Tables) (mir : IBody) :
    Except ConvErr (StableMir.Body × Tables) :=
  match mapME IBasicBlock.stable mir.basicBlocks with
  | .error e => .error e
  | .ok blocks =>
      let p := internManyTys tables mir.localDecls
      .ok ({ blocks := blocks, locals := p.1 }, p.2)

/-! ## Successor block indices carried by terminators -/

def IUnwindAction.successors : IUnwindAction → List Nat
  | .cleanup bb => [bb]
  | _ => []

/-- Every successor block index carried by an internal terminator. -/
def ITerminator.successors : ITerminator → List Nat
  | .goto target => [target]
  | .switchInt _ targets otherwise => targets.map (·.2) ++ [otherwise]
  | .resume => []
  | .terminate => []
  | .ret => []
  | .unreachableK => []
  | .drop _ target unwind _ => target :: unwind.successors
  | .call _ _ _ target unwind _ _ => target.toList ++ unwind.successors
  | .assert _ _ _ target unwind => target :: unwind.successors
  | .inlineAsm _ _ _ _ destination unwind =>
      destination.toList ++ unwind.successors
  | .yieldK _ resumeT _ dropT => resumeT :: dropT.toList
  | .generatorDrop => []
  | .falseEdge realTarget imaginaryTarget => [realTarget, imaginaryTarget]
  | .falseUnwind realTarget unwind => realTarget :: unwind.successors

def StableMir.UnwindAction.successors : StableMir.UnwindAction → List Nat
  | .cleanup bb => [bb]
  | _ => []

/-- Every successor block index carried by a stable terminator. -/
def StableMir.Terminator.successors : StableMir.Terminator → List Nat
  | .goto target => [target]
  | .switchInt _ targets otherwise => targets.map (·.target) ++ [otherwise]
  | .resume => []
  | .abort => []
  | .ret => []
  | .unreachableK => []
  | .drop _ target unwind => target :: unwind.successors
  | .call _ _ _ target unwind => target.toList ++ unwind.successors
  | .assert _ _ _ target unwind => target :: unwind.successors
  | .inlineAsm _ _ _ _ destination unwind =>
      destination.toList ++ unwind.successors

/-! ## The `read_zero_byte_vec` lint (`clippy_lints/src/read_zero_byte_vec.rs`)

A small HIR model: every expression node carries its span; a span carries
its source text and whether it comes from a macro expansion.  Paths are
modelled as resolved, unqualified segment lists (`QPath::Resolved(None, _)`);
any other path form falls under the opaque `other` node. -/

/-- A source span: its rendered source text (`snippet`) and its
`from_expansion` flag. -/
structure Span where
  text : String
  fromExpansion : Bool
deriving DecidableEq

inductive HirMutability where
  | not | mut
deriving DecidableEq

inductive HExpr where
  | methodCall (span : Span) (seg : String) (receiver : HExpr)
               (args : List HExpr)
  | addrOf (span : Span) (raw : Bool) (mutbl : HirMutability) (e : HExpr)
  | path (span : Span) (segments : List String)
  | call (span : Span) (callee : String) (args : List HExpr)
  | lit (span : Span) (n : Nat)
  | closure (span : Span) (body : HExpr)
  | other (span : Span) (children : List HExpr)

def HExpr.span : HExpr → Span
  | .methodCall sp _ _ _ => sp
  | .addrOf sp _ _ _ => sp
  | .path sp _ => sp
  | .call sp _ _ => sp
  | .lit sp _ => sp
  | .closure sp _ => sp
  | .other sp _ => sp

inductive HPat where
  | binding (ident : String)
  | wild
deriving Inhabited

/-- `hir::Local` reduced to the fields the lint destructures. -/
structure HLocal where
  pat : HPat
  init : Option HExpr

inductive HStmtKind where
  | localS (l : HLocal)
  | exprS (e : HExpr)
  | semi (e : HExpr)
  | item

structure HStmt where
  span : Span
  kind : HStmtKind

structure HBlock where
  stmts : List HStmt
  expr : Option HExpr

/-- `rustc_errors::Applicability`. -/
inductive Applicability where
  | machineApplicable
  | maybeIncorrect
  | hasPlaceholders
  | unspecified
deriving DecidableEq

/-- One emitted lint diagnostic: its anchor span, message and (for
`span_lint_and_sugg`) the help text, replacement and confidence level. -/
structure Diagnostic where
  span : Span
  msg : String
  help : Option String
  sugg : Option String
  applicability : Option Applicability
deriving DecidableEq

/-- Modelled from the spec: `clippy_utils::source::snippet` renders the
source text at a span. -/
def snippet (sp : Span) : String := sp.text

/-- Modelled from the spec: `clippy_utils::higher::get_vec_init_kind`
classifies an initializer that introduces a zero-length, capacity-reserving
buffer binding: `Vec::new()` reserves nothing, `Vec::with_capacity(n)`
reserves a constant or dynamically computed capacity (the latter recorded by
the capacity expression, modelled by its span). -/
inductive VecInitKind where
  | new
  | withConstCapacity (len : Nat)
  | withExprCapacity (capSpan : Span)
deriving DecidableEq

/-- Modelled from the spec: see `VecInitKind`. -/
def get_vec_init_kind : HExpr → Option VecInitKind
  | .call _ "Vec::new" [] => some .new
  | .call _ "Vec::with_capacity" [arg] =>
      match arg with
      | .lit _ n => some (.withConstCapacity n)
      | _ => some (.withExprCapacity arg.span)
  | _ => none

/-- The per-node matcher of the lint's visitor closure: a method call
literally named `read` or `read_exact` whose single argument is `&mut b`
where `b` is a plain single-segment resolved path naming the binding. -/
def isReadCall (ident : String) : HExpr → Bool
  | .methodCall _ seg _ [.addrOf _ _ .mut inner] =>
      match inner with
      | .path _ [innerSeg] =>
          (seg == "read" || seg == "read_exact") && innerSeg == ident
      | _ => false
  | _ => false

mutual

/-- Modelled from the spec: `clippy_utils::visitors::expr_visitor_no_bodies`
visits every sub-expression of an expression, without entering nested
bodies (a closure's body is not visited); the lint's closure records whether
any visited node matches. -/
def anySub (p : HExpr → Bool) : HExpr → Bool :=
  fun e =>
    p e ||
      match e with
      | .methodCall _ _ recv args => anySub p recv || anySubList p args
      | .addrOf _ _ _ inner => anySub p inner
      | .path _ _ => false
      | .call _ _ args => anySubList p args
      | .lit _ _ => false
      | .closure _ _ => false
      | .other _ children => anySubList p children

/-- List version of `anySub`. -/
def anySubList (p : HExpr → Bool) : List HExpr → Bool
  | [] => false
  | x :: xs => anySub p x || anySubList p xs

end

/-- `Visitor::visit_stmt` restricted to what the lint's expression visitor
reaches inside a statement. -/
def stmtHasRead (p : HExpr → Bool) (st : HStmt) : Bool :=
  match st.kind with
  | .localS l =>
      match l.init with
      | some e => anySub p e
      | none => false
  | .exprS e => anySub p e
  | .semi e => anySub p e
  | .item => false

/-- The span the diagnostic is anchored at for the binding statement at
`idx`: the following statement's span, or the trailing expression's span
when `idx` is the last statement. -/
def nextSpanAt (block : HBlock) (idx : Nat) : Option Span :=
  if idx = block.stmts.length - 1 then block.expr.map HExpr.span
  else (block.stmts[idx + 1]?).map HStmt.span

/-- Whether the two-statement window starting at `idx` finds a matching
read of `ident`. -/
def readFoundAt (block : HBlock) (idx : Nat) (ident : String) : Bool :=
  if idx = block.stmts.length - 1 then
    match block.expr with
    | some e => anySub (isReadCall ident) e
    | none => false
  else
    match block.stmts[idx + 1]? with
    | some next => stmtHasRead (isReadCall ident) next
    | none => false

/-- The loop body of `ReadZeroByteVec::check_block` for index `idx`:
the diagnostic it emits there, if any. -/
def checkStmtAt (block : HBlock) (idx : Nat) : Option Diagnostic :=
  match block.stmts[idx]? with
  | none => none
  | some stmt =>
      if stmt.span.fromExpansion then none
      else
        match stmt.kind with
        | .localS ⟨.binding ident, some init⟩ =>
            match get_vec_init_kind init with
            | none => none
            | some vik =>
                match nextSpanAt block idx with
                | none => none
                | some nextSpan =>
                    if readFoundAt block idx ident
                        && !nextSpan.fromExpansion then
                      match vik with
                      | .withConstCapacity len =>
                          some { span := nextSpan,
                                 msg := "reading zero byte data to `Vec`",
                                 help := some "try",
                                 sugg := some (ident ++ ".resize("
                                   ++ toString len ++ ", 0); "
                                   ++ snippet nextSpan),
                                 applicability := some .maybeIncorrect }
                      | .withExprCapacity capSpan =>
                          some { span := nextSpan,
                                 msg := "reading zero byte data to `Vec`",
                                 help := some "try",
                                 sugg := some (ident ++ ".resize("
                                   ++ snippet capSpan ++ ", 0); "
                                   ++ snippet nextSpan),
                                 applicability := some .maybeIncorrect }
                      | _ =>
                          some { span := nextSpan,
                                 msg := "reading zero byte data to `Vec`",
                                 help := none, sugg := none,
                                 applicability := none }
                    else none
        | _ => none

/-- `ReadZeroByteVec::check_block`: the loop over the enumerated statements,
collecting every emitted diagnostic in order. -/
def check_block (block : HBlock) : List Diagnostic :=
  (List.range block.stmts.length).filterMap (checkStmtAt block)

/-! ## Constructor correspondence and remaining classifications -/

/-- The stable rigid-type head constructor, by name. -/
def StableMir.RigidTy.ctorName : StableMir.RigidTy → String
  | .bool => "Bool"
  | .char => "Char"
  | .int _ => "Int"
  | .uint _ => "Uint"
  | .float _ => "Float"
  | .adt _ _ => "Adt"
  | .foreign _ => "Foreign"
  | .str => "Str"
  | .array _ _ => "Array"
  | .slice _ => "Slice"
  | .rawPtr _ _ => "RawPtr"
  | .ref _ _ _ => "Ref"
  | .fnDef _ _ => "FnDef"
  | .fnPtr _ => "FnPtr"
  | .closure _ _ => "Closure"
  | .generator _ _ _ => "Generator"
  | .never => "Never"
  | .tuple _ => "Tuple"

/-- The stable rigid-type head constructor an internal type kind is expected
to map to (meaningful for supported kinds only). -/
def ITy.rigidCtorName : ITy → String
  | .bool => "Bool"
  | .char => "Char"
  | .int _ => "Int"
  | .uint _ => "Uint"
  | .float _ => "Float"
  | .adt _ _ => "Adt"
  | .foreign _ => "Foreign"
  | .str => "Str"
  | .array _ _ => "Array"
  | .slice _ => "Slice"
  | .rawPtr _ _ => "RawPtr"
  | .ref _ _ _ => "Ref"
  | .fnDef _ _ => "FnDef"
  | .fnPtr _ => "FnPtr"
  | .closure _ _ => "Closure"
  | .generator _ _ _ => "Generator"
  | .never => "Never"
  | .tuple _ => "Tuple"
  | _ => "unsupported"

/-- Internal statement kinds other than `Assign` and `Nop` (the deliberately
unconverted ones). -/
def IStatement.otherKind : IStatement → Bool
  | .assign _ _ => false
  | .nop => false
  | _ => true

/-- Internal terminator kinds asserted to never appear in the representation
this layer consumes. -/
def ITerminator.assumedUnreachable : ITerminator → Bool
  | .yieldK _ _ _ _ => true
  | .generatorDrop => true
  | .falseEdge _ _ => true
  | .falseUnwind _ _ => true
  | _ => false

/-! ## Claim theorems -/

/-- C6: type-kind conversion never maps an unmodeled variant to an arbitrary
stable default: `Dynamic`, `Alias`, `Param`, `Bound` signal the explicit
unsupported (`NotYetImplemented`) outcome, the kinds assumed impossible at
this IR stage (`Placeholder`, `GeneratorWitness`, `GeneratorWitnessMIR`,
`Infer`, `Error`) signal the invariant-violated outcome, and every other
kind converts successfully. -/
theorem tyStable_error_classification (tables : Tables) (t : ITy) :
    (ITy.stable t tables = .error .notYetImplemented
        ↔ t.notYetImplementedKind = true) ∧
    (ITy.stable t tables = .error .invariantViolated
        ↔ t.assumedUnreachableKind = true) ∧
    ((ITy.stable t tables).isOk = true ↔ t.supported = true) := by
  cases t <;>
    simp [ITy.stable, ITy.notYetImplementedKind, ITy.assumedUnreachableKind,
      ITy.supported, Except.isOk, Except.toBool]

/-- C5: statement conversion is an exhaustive case split with exactly two
converted variants: `Assign` converts to stable `Assign` with its place and
rvalue converted (propagating the rvalue conversion's outcome), `Nop`
converts to stable `Nop`, and every other statement kind signals
`NotYetImplemented`. -/
theorem statement_stable_classification :
    (∀ (p : IPlace) (r : IRvalue) (rv : StableMir.Rvalue),
        r.stable = .ok rv →
        IStatement.stable (.assign p r) = .ok (.assign p.stable rv)) ∧
    (∀ (p : IPlace) (r : IRvalue) (e : ConvErr),
        r.stable = .error e → IStatement.stable (.assign p r) = .error e) ∧
    IStatement.stable .nop = .ok .nop ∧
    (∀ st : IStatement, st.otherKind = true →
        IStatement.stable st = .error .notYetImplemented) := by
  refine ⟨?_, ?_, rfl, ?_⟩
  · intro p r rv h
    simp [IStatement.stable, h]
  · intro p r e h
    simp [IStatement.stable, h]
  · intro st h
    cases st <;> simp [IStatement.otherKind] at h <;>
      simp [IStatement.stable]

/-- C5 witness: the `Assign`, `Nop` and other-kind branches at concrete
inputs. -/
theorem statement_stable_classification_witness :
    IStatement.stable (.assign ⟨0, "_1"⟩ (.use (.constant "c")))
      = .ok (.assign ⟨0, "_1"⟩ (.use (.constant "c"))) ∧
    IStatement.stable (.assign ⟨0, "_1"⟩ (.repeatR (.constant "c") "3"))
      = .error .notYetImplemented ∧
    IStatement.stable (.storageLive 2) = .error .notYetImplemented :=
  ⟨statement_stable_classification.1 ⟨0, "_1"⟩ (.use (.constant "c"))
      (.use (.constant "c")) rfl,
   statement_stable_classification.2.1 ⟨0, "_1"⟩
      (.repeatR (.constant "c") "3") .notYetImplemented rfl,
   statement_stable_classification.2.2.2 (.storageLive 2) rfl⟩

/-- C7: terminator conversion treats `Yield`, `GeneratorDrop`, `FalseEdge`
and `FalseUnwind` as never appearing at this IR stage: exactly these kinds
signal the invariant-violated outcome, and for them no stable terminator is
ever produced. -/
theorem terminator_stable_unreachable_classification (t : ITerminator) :
    (ITerminator.stable t = .error .invariantViolated
        ↔ t.assumedUnreachable = true) ∧
    (t.assumedUnreachable = true →
        ∀ st : StableMir.Terminator, ITerminator.stable t ≠ .ok st) := by
  constructor
  · cases t <;> simp [ITerminator.stable, ITerminator.assumedUnreachable]
  · intro h st
    cases t <;> simp [ITerminator.assumedUnreachable] at h <;>
      simp [ITerminator.stable]

/-- C7 witness: the generator-drop terminator at a concrete stable
candidate. -/
theorem terminator_stable_unreachable_classification_witness :
    ITerminator.stable .generatorDrop ≠ .ok .resume :=
  (terminator_stable_unreachable_classification .generatorDrop).2 rfl .resume

/-- C1: within one session interning is deterministic and monotone: two
intern calls (with any interleaved interning in between) return the same
handle iff the values are structurally equal; a fresh value is appended and
receives the new length minus one; from an empty session the table always
holds exactly the distinct values interned, without duplicates, so the n-th
distinct value receives handle n-1; concretely, two interns of an equal
value both yield handle 0 and a third, distinct value yields handle 1. -/
theorem intern_deterministic_monotone :
    (∀ (s : Tables) (a : ITy) (mids : List ITy) (b : ITy),
        (((internManyTys (s.intern_ty a).2 mids).2.intern_ty b).1
            = (s.intern_ty a).1 ↔ b = a)) ∧
    (∀ (s : Tables) (a : ITy), a ∉ s.types →
        (s.intern_ty a).1 = ⟨s.types.length⟩ ∧
        (s.intern_ty a).2.types = s.types ++ [a]) ∧
    (∀ ts : List ITy,
        (internManyTys ⟨[], []⟩ ts).2.types.Nodup ∧
        ∀ x : ITy, x ∈ (internManyTys ⟨[], []⟩ ts).2.types ↔ x ∈ ts) ∧
    (∀ a b : ITy, a ≠ b →
        ((⟨[], []⟩ : Tables).intern_ty a).1 = ⟨0⟩ ∧
        (((⟨[], []⟩ : Tables).intern_ty a).2.intern_ty a).1 = ⟨0⟩ ∧
        ((((⟨[], []⟩ : Tables).intern_ty a).2.intern_ty a).2.intern_ty b).1
            = ⟨1⟩) := by
  refine ⟨?_, ?_, ?_, ?_⟩
  · intro s a mids b
    constructor
    · intro heq
      have hb := intern_ty_resolve (internManyTys (s.intern_ty a).2 mids).2 b
      have ha := intern_ty_resolve s a
      obtain ⟨e1, he1⟩ := internManyTys_types_append (s.intern_ty a).2 mids
      obtain ⟨e2, he2⟩ :=
        intern_ty_types_append (internManyTys (s.intern_ty a).2 mids).2 b
      have hidx := intern_ty_lt s a
      have ha' :
          ((internManyTys (s.intern_ty a).2 mids).2.intern_ty b).2.types[
            (s.intern_ty a).1.idx]? = some a := by
        rw [he2, he1, List.append_assoc,
          List.getElem?_append_left hidx]
        exact ha
      rw [heq] at hb
      rw [ha'] at hb
      exact (Option.some.inj hb).symm
    · intro hba
      subst hba
      have h1 := intern_ty_pos s b
      obtain ⟨e1, he1⟩ := internManyTys_types_append (s.intern_ty b).2 mids
      have h2 : listPos b (internManyTys (s.intern_ty b).2 mids).2.types
          = some (s.intern_ty b).1.idx := by
        rw [he1]
        exact listPos_append_left h1 e1
      rw [intern_ty_found _ _ h2]
  · intro s a h
    rw [intern_ty_fresh s a h]
    exact ⟨rfl, rfl⟩
  · intro ts
    refine ⟨internManyTys_nodup _ _ (by simp), ?_⟩
    intro x
    rw [internManyTys_mem_iff]
    simp
  · intro a b hab
    have h1 : (⟨[], []⟩ : Tables).intern_ty a = (⟨0⟩, ⟨[], [a]⟩) := rfl
    have h2 : (⟨[], [a]⟩ : Tables).intern_ty a = (⟨0⟩, ⟨[], [a]⟩) := by
      simp [Tables.intern_ty, listPos]
    have h3 : (⟨[], [a]⟩ : Tables).intern_ty b = (⟨1⟩, ⟨[], [a, b]⟩) := by
      simp [Tables.intern_ty, listPos, hab]
    refine ⟨?_, ?_, ?_⟩ <;> simp [h1, h2, h3]

/-- C1 witness: interning `bool`, `bool`, `char` from an empty session. -/
theorem intern_deterministic_monotone_witness :
    ((⟨[], []⟩ : Tables).intern_ty .bool).1 = ⟨0⟩ ∧
    ((⟨[], []⟩ : Tables).intern_ty .bool).2.types = [ITy.bool] ∧
    (((⟨[], []⟩ : Tables).intern_ty .bool).2.intern_ty .bool).1 = ⟨0⟩ ∧
    ((((⟨[], []⟩ : Tables).intern_ty .bool).2.intern_ty .bool).2.intern_ty
        .char).1 = ⟨1⟩ := by
  have h2 := intern_deterministic_monotone.2.1 ⟨[], []⟩ .bool (by decide)
  have h4 := intern_deterministic_monotone.2.2.2 .bool .char (by decide)
  exact ⟨h4.1, by simpa using h2.2, h4.2.1, h4.2.2⟩

/-- C2: for every supported internal type shape, `ty_kind (intern t)`
resolves the freshly returned handle back to `t` itself and computes exactly
the stable conversion of `t`, which succeeds and reproduces the structural
head of `t`. -/
theorem ty_kind_intern_roundtrip (s : Tables) (t : ITy)
    (ht : t.supported = true) :
    ∃ hlt : (s.intern_ty t).1.idx < (s.intern_ty t).2.types.length,
      (s.intern_ty t).2.types.get ⟨(s.intern_ty t).1.idx, hlt⟩ = t ∧
      (s.intern_ty t).2.ty_kind (s.intern_ty t).1 hlt
          = ITy.stable t (s.intern_ty t).2 ∧
      ∃ (r : StableMir.RigidTy) (s' : Tables),
        ITy.stable t (s.intern_ty t).2 = .ok (.rigidTy r, s')
          ∧ r.ctorName = t.rigidCtorName := by
  have hget : (s.intern_ty t).2.types.get
      ⟨(s.intern_ty t).1.idx, intern_ty_lt s t⟩ = t := by
    obtain ⟨h1, h2⟩ := List.getElem?_eq_some.mp (intern_ty_resolve s t)
    simpa [List.get_eq_getElem] using h2
  refine ⟨intern_ty_lt s t, hget, ?_, ?_⟩
  · unfold Tables.ty_kind
    rw [hget]
  · cases t <;>
      first
        | exact ⟨_, _, rfl, rfl⟩
        | simp [ITy.supported] at ht

/-- C2 witness: interning and resolving `Never` in an empty session. -/
theorem ty_kind_intern_roundtrip_witness :
    ∃ hlt : ((⟨[], []⟩ : Tables).intern_ty .never).1.idx
        < ((⟨[], []⟩ : Tables).intern_ty .never).2.types.length,
      ((⟨[], []⟩ : Tables).intern_ty .never).2.types.get
          ⟨((⟨[], []⟩ : Tables).intern_ty .never).1.idx, hlt⟩ = .never ∧
      ((⟨[], []⟩ : Tables).intern_ty .never).2.ty_kind
          ((⟨[], []⟩ : Tables).intern_ty .never).1 hlt
          = ITy.stable .never ((⟨[], []⟩ : Tables).intern_ty .never).2 ∧
      ∃ (r : StableMir.RigidTy) (s' : Tables),
        ITy.stable .never ((⟨[], []⟩ : Tables).intern_ty .never).2
            = .ok (.rigidTy r, s')
          ∧ r.ctorName = ITy.rigidCtorName .never :=
  ty_kind_intern_roundtrip ⟨[], []⟩ .never rfl

/-! ## Supporting lemmas for the body conversion -/

theorem mapME_ok_forall₂ {α β : Type} {f : α → Except ConvErr β} :
    ∀ {l : List α} {l' : List β}, mapME f l = .ok l' →
      List.Forall₂ (fun y x => f x = .ok y) l' l := by
  intro l
  induction l with
  | nil =>
      intro l' h
      simp only [mapME] at h
      cases h
      exact List.Forall₂.nil
  | cons x xs ih =>
      intro l' h
      unfold mapME at h
      cases hfx : f x with
      | error e => rw [hfx] at h; cases h
      | ok y =>
          rw [hfx] at h
          cases hrec : mapME f xs with
          | error e => rw [hrec] at h; cases h
          | ok ys =>
              rw [hrec] at h
              cases h
              exact List.Forall₂.cons hfx (ih hrec)

theorem forall₂_mem_left {α β : Type} {R : α → β → Prop} {l₁ : List α}
    {l₂ : List β} (h : List.Forall₂ R l₁ l₂) :
    ∀ {a : α}, a ∈ l₁ → ∃ b ∈ l₂, R a b := by
  induction h with
  | nil => intro a ha; cases ha
  | cons hR hF ih =>
      intro a ha
      rcases List.mem_cons.mp ha with rfl | ha'
      · exact ⟨_, List.mem_cons_self _ _, hR⟩
      · obtain ⟨b, hb, hRb⟩ := ih ha'
        exact ⟨b, List.mem_cons_of_mem _ hb, hRb⟩

theorem blockStable_ok {blk : IBasicBlock} {sb : StableMir.BasicBlock}
    (h : IBasicBlock.stable blk = .ok sb) :
    blk.terminator.stable = .ok sb.terminator ∧
    mapME IStatement.stable blk.statements = .ok sb.statements := by
  unfold IBasicBlock.stable at h
  cases ht : blk.terminator.stable with
  | error e => rw [ht] at h; cases h
  | ok t =>
      rw [ht] at h
      cases hs : mapME IStatement.stable blk.statements with
      | error e => rw [hs] at h; cases h
      | ok sts =>
          rw [hs] at h
          cases h
          exact ⟨rfl, rfl⟩

theorem unwind_stable_successors (u : IUnwindAction) :
    u.stable.successors = u.successors := by
  cases u <;> rfl

theorem terminator_stable_successors {it : ITerminator}
    {st : StableMir.Terminator} (h : ITerminator.stable it = .ok st) :
    st.successors = it.successors := by
  cases it <;> simp only [ITerminator.stable] at h <;> cases h <;>
    simp [ITerminator.successors, StableMir.Terminator.successors,
      List.map_map, Function.comp, unwind_stable_successors]

/-- C3: every successfully converted `Body` is internally consistent: its
block count matches the source body's, every successor block index carried
by every terminator is strictly less than the block count (given the source
body's own successor indices are in range), and each block's statements are
exactly the in-order conversions of the source block's statements. -/
theorem mir_body_wellformed (tables : Tables) (mir : IBody)
    (b : StableMir.Body) (tables' : Tables)
    (hok : mir_body tables mir = .ok (b, tables'))
    (hwf : ∀ blk ∈ mir.basicBlocks, ∀ succ ∈ blk.terminator.successors,
      succ < mir.basicBlocks.length) :
    b.blocks.length = mir.basicBlocks.length ∧
    (∀ blk ∈ b.blocks, ∀ succ ∈ blk.terminator.successors,
      succ < b.blocks.length) ∧
    List.Forall₂
      (fun sb ib =>
        List.Forall₂ (fun st ist => IStatement.stable ist = .ok st)
          sb.statements ib.statements)
      b.blocks mir.basicBlocks := by
  unfold mir_body at hok
  cases hmap : mapME IBasicBlock.stable mir.basicBlocks with
  | error e => rw [hmap] at hok; cases hok
  | ok blocks =>
      rw [hmap] at hok
      cases hok
      have hF := mapME_ok_forall₂ hmap
      have hlen : blocks.length = mir.basicBlocks.length := hF.length_eq
      refine ⟨hlen, ?_, ?_⟩
      · intro blk hmem succ hsucc
        obtain ⟨ib, hib, hconv⟩ := forall₂_mem_left hF hmem
        have hterm := (blockStable_ok hconv).1
        have hsuccEq := terminator_stable_successors hterm
        rw [hsuccEq] at hsucc
        have := hwf ib hib succ hsucc
        simpa [hlen] using this
      · exact hF.imp fun {sb ib} hconv =>
          mapME_ok_forall₂ (blockStable_ok hconv).2

/-- C3 witness: a one-block body (a `Nop` statement and a self-`Goto`) with
one local, converted from an empty session. -/
theorem mir_body_wellformed_witness :
    (StableMir.Body.mk [⟨[.nop], .goto 0⟩] [⟨0⟩]).blocks.length
        = (IBody.mk [⟨[.nop], .goto 0⟩] [.bool]).basicBlocks.length ∧
    (∀ blk ∈ (StableMir.Body.mk [⟨[.nop], .goto 0⟩] [⟨0⟩]).blocks,
      ∀ succ ∈ blk.terminator.successors,
        succ < (StableMir.Body.mk [⟨[.nop], .goto 0⟩] [⟨0⟩]).blocks.length) ∧
    List.Forall₂
      (fun sb ib =>
        List.Forall₂ (fun st ist => IStatement.stable ist = .ok st)
          sb.statements ib.statements)
      (StableMir.Body.mk [⟨[.nop], .goto 0⟩] [⟨0⟩]).blocks
      (IBody.mk [⟨[.nop], .goto 0⟩] [.bool]).basicBlocks :=
  mir_body_wellformed ⟨[], []⟩ (IBody.mk [⟨[.nop], .goto 0⟩] [.bool])
    (StableMir.Body.mk [⟨[.nop], .goto 0⟩] [⟨0⟩]) ⟨[], [.bool]⟩ rfl
    (by decide)

/-! ## Supporting lemmas for crate lookup -/

theorem findMap_eq_none_iff {α β : Type} (f : α → Option β) (l : List α) :
    findMap f l = none ↔ ∀ x ∈ l, f x = none := by
  induction l with
  | nil => simp [findMap]
  | cons x xs ih =>
      cases hfx : f x with
      | some y => simp [findMap, hfx]
      | none => simp [findMap, hfx, ih]

theorem findMap_eq_some_iff {α β : Type} (f : α → Option β) (l : List α)
    (y : β) :
    findMap f l = some y ↔
      ∃ pre x post, l = pre ++ x :: post ∧ f x = some y ∧
        ∀ z ∈ pre, f z = none := by
  induction l with
  | nil =>
      constructor
      · intro h; cases h
      · rintro ⟨pre, x, post, habs, -, -⟩
        exact absurd habs (by simp)
  | cons x xs ih =>
      cases hfx : f x with
      | some y' =>
          simp only [findMap, hfx]
          constructor
          · intro h
            cases h
            exact ⟨[], x, xs, rfl, hfx, by simp⟩
          · rintro ⟨pre, x', post, heq, hfx', hpre⟩
            cases pre with
            | nil =>
                simp only [List.nil_append, List.cons.injEq] at heq
                obtain ⟨rfl, rfl⟩ := heq
                rw [hfx] at hfx'
                exact hfx'
            | cons p ps =>
                simp only [List.cons_append, List.cons.injEq] at heq
                obtain ⟨rfl, rfl⟩ := heq
                have hx := hpre x (by simp)
                rw [hfx] at hx
                cases hx
      | none =>
          simp only [findMap, hfx]
          constructor
          · intro h
            obtain ⟨pre, x', post, rfl, hfx', hpre⟩ := ih.mp h
            refine ⟨x :: pre, x', post, by simp, hfx', ?_⟩
            intro z hz
            rcases List.mem_cons.mp hz with rfl | hz'
            · exact hfx
            · exact hpre z hz'
          · rintro ⟨pre, x', post, heq, hfx', hpre⟩
            cases pre with
            | nil =>
                simp only [List.nil_append, List.cons.injEq] at heq
                obtain ⟨rfl, rfl⟩ := heq
                rw [hfx] at hfx'
                cases hfx'
            | cons p ps =>
                simp only [List.cons_append, List.cons.injEq] at heq
                obtain ⟨rfl, rfl⟩ := heq
                exact ih.mpr ⟨ps, x', post, rfl, hfx',
                  fun z hz => hpre z (List.mem_cons_of_mem _ hz)⟩

/-- C4 counterexample: with an external crate (number 1) sharing the local
crate's name `"a"`, `find_crate` on that external snapshot's name returns
the local crate, whose id 0 differs from the snapshot's id 1. -/
theorem find_crate_id_mismatch_counterexample :
    smir_crate ⟨[1], fun _ => "a"⟩ 1 ∈ external_crates ⟨[1], fun _ => "a"⟩ ∧
    (find_crate ⟨[1], fun _ => "a"⟩
        (smir_crate ⟨[1], fun _ => "a"⟩ 1).name).map StableMir.Crate.id
      = some 0 ∧
    (smir_crate ⟨[1], fun _ => "a"⟩ 1).id = 1 := by
  refine ⟨?_, rfl, rfl⟩
  simp [external_crates]

/-- C4 (amended): `find_crate(local_crate().name)` always returns the local
crate itself; for a snapshot `c` from `external_crates()`,
`find_crate(c.name)` returns `c` (same id) provided no two crates in the
search order share a name; and `find_crate` is the linear first-match search
over the local crate followed by the external crates, returning `none` iff
no crate has the requested name. -/
theorem find_crate_characterization :
    (∀ tcx : CrateCtxt,
        find_crate tcx (local_crate tcx).name = some (local_crate tcx)) ∧
    (∀ (tcx : CrateCtxt) (c : StableMir.Crate), c ∈ external_crates tcx →
      (∀ m ∈ LOCAL_CRATE :: tcx.crates, ∀ k ∈ LOCAL_CRATE :: tcx.crates,
          tcx.crateName m = tcx.crateName k → m = k) →
      find_crate tcx c.name = some c) ∧
    (∀ (tcx : CrateCtxt) (name : String),
      (find_crate tcx name = none ↔
        ∀ n ∈ LOCAL_CRATE :: tcx.crates, tcx.crateName n ≠ name) ∧
      (∀ cr : StableMir.Crate, find_crate tcx name = some cr ↔
        ∃ pre n post, LOCAL_CRATE :: tcx.crates = pre ++ n :: post ∧
          tcx.crateName n = name ∧ cr = smir_crate tcx n ∧
          ∀ m ∈ pre, tcx.crateName m ≠ name)) := by
  refine ⟨?_, ?_, ?_⟩
  · intro tcx
    simp [find_crate, local_crate, smir_crate, findMap]
  · intro tcx c hmem hinj
    obtain ⟨n, hn, rfl⟩ := List.mem_map.mp hmem
    cases hfind : find_crate tcx (smir_crate tcx n).name with
    | none =>
        have h0 := (findMap_eq_none_iff _ _).mp hfind n
          (List.mem_cons_of_mem _ hn)
        simp [smir_crate] at h0
    | some cr =>
        obtain ⟨pre, m, post, hlist, hfm, hpre⟩ :=
          (findMap_eq_some_iff _ _ _).mp hfind
        have hm_mem : m ∈ LOCAL_CRATE :: tcx.crates := by
          rw [hlist]; simp
        by_cases hname : (smir_crate tcx n).name = tcx.crateName m
        · rw [if_pos hname] at hfm
          have hmn : m = n := hinj m hm_mem n (List.mem_cons_of_mem _ hn)
            (by simpa [smir_crate] using hname.symm)
          subst hmn
          exact hfm.symm
        · rw [if_neg hname] at hfm
          cases hfm
  · intro tcx name
    constructor
    · rw [find_crate, findMap_eq_none_iff]
      constructor
      · intro h n hn heq
        have h1 := h n hn
        rw [if_pos heq.symm] at h1
        cases h1
      · intro h n hn
        rw [if_neg (fun he => h n hn he.symm)]
    · intro cr
      rw [find_crate, findMap_eq_some_iff]
      constructor
      · rintro ⟨pre, n, post, hlist, hfm, hpre⟩
        by_cases hname : name = tcx.crateName n
        · rw [if_pos hname] at hfm
          refine ⟨pre, n, post, hlist, hname.symm,
            (Option.some.inj hfm).symm, ?_⟩
          intro m hmz hcontr
          have h1 := hpre m hmz
          rw [if_pos hcontr.symm] at h1
          cases h1
        · rw [if_neg hname] at hfm
          cases hfm
      · rintro ⟨pre, n, post, hlist, hname, rfl, hpre⟩
        refine ⟨pre, n, post, hlist, ?_, ?_⟩
        · rw [if_pos hname.symm]
        · intro z hz
          rw [if_neg (fun he => hpre z hz he.symm)]

/-- C4 witness: a context with distinct crate names (`"root"` local,
`"dep"` external number 1). -/
theorem find_crate_characterization_witness :
    find_crate ⟨[1], fun n => if n = 0 then "root" else "dep"⟩
        (smir_crate ⟨[1], fun n => if n = 0 then "root" else "dep"⟩ 1).name
      = some (smir_crate ⟨[1], fun n => if n = 0 then "root" else "dep"⟩ 1) :=
  find_crate_characterization.2.1
    ⟨[1], fun n => if n = 0 then "root" else "dep"⟩
    (smir_crate ⟨[1], fun n => if n = 0 then "root" else "dep"⟩ 1)
    (by simp [external_crates]) (by decide)

/-- C8: for the block `let mut v = Vec::with_capacity(100); f.read(&mut v);`
the lint produces exactly one diagnostic, anchored at the second statement,
carrying the replacement `v.resize(100, 0); f.read(&mut v);` with the
`MaybeIncorrect` confidence level. -/
theorem read_zero_byte_vec_concrete :
    check_block
      { stmts := [
          { span := ⟨"let mut v = Vec::with_capacity(100);", false⟩,
            kind := .localS ⟨.binding "v",
              some (.call ⟨"Vec::with_capacity(100)", false⟩
                "Vec::with_capacity" [.lit ⟨"100", false⟩ 100])⟩ },
          { span := ⟨"f.read(&mut v);", false⟩,
            kind := .semi (.methodCall ⟨"f.read(&mut v)", false⟩ "read"
              (.path ⟨"f", false⟩ ["f"])
              [.addrOf ⟨"&mut v", false⟩ false .mut
                (.path ⟨"v", false⟩ ["v"])]) }],
        expr := none }
      = [{ span := ⟨"f.read(&mut v);", false⟩,
           msg := "reading zero byte data to `Vec`",
           help := some "try",
           sugg := some "v.resize(100, 0); f.read(&mut v);",
           applicability := some .maybeIncorrect }] := by
  rfl

/-- Anatomy of an emitted diagnostic: the binding statement exists and is
not macro-expanded, and the diagnostic is anchored at the (non-expanded)
next span. -/
theorem checkStmtAt_some_spec {block : HBlock} {idx : Nat} {d : Diagnostic}
    (h : checkStmtAt block idx = some d) :
    ∃ stmt, block.stmts[idx]? = some stmt ∧
      stmt.span.fromExpansion = false ∧
      nextSpanAt block idx = some d.span ∧
      d.span.fromExpansion = false := by
  unfold checkStmtAt at h
  split at h
  · cases h
  · rename_i stmt hst
    split at h
    · cases h
    · rename_i hexp
      have hexp2 : stmt.span.fromExpansion = false := by
        simpa using hexp
      split at h
      · rename_i ident init hkind
        split at h
        · cases h
        · rename_i vik hvik
          split at h
          · cases h
          · rename_i nextSpan hnext
            split at h
            · rename_i hread
              have hne : nextSpan.fromExpansion = false := by
                have hb := hread
                simp only [Bool.and_eq_true, Bool.not_eq_true'] at hb
                exact hb.2
              split at h <;> cases h <;> exact ⟨_, hst, hexp2, hnext, hne⟩
            · cases h
      · cases h

/-- C9: the lint never fires across a macro-expanded statement boundary: if
the binding statement's span or the next span comes from an expansion, no
diagnostic is emitted at that index, and every diagnostic the lint does
emit is anchored at a non-expanded span paired with a non-expanded binding
statement. -/
theorem lint_never_fires_across_expansion (block : HBlock) (idx : Nat) :
    ((∃ stmt, block.stmts[idx]? = some stmt ∧
        stmt.span.fromExpansion = true) → checkStmtAt block idx = none) ∧
    ((∃ sp, nextSpanAt block idx = some sp ∧ sp.fromExpansion = true) →
        checkStmtAt block idx = none) ∧
    (∀ d ∈ check_block block, d.span.fromExpansion = false ∧
      ∃ i stmt, block.stmts[i]? = some stmt ∧
        stmt.span.fromExpansion = false ∧
        nextSpanAt block i = some d.span) := by
  refine ⟨?_, ?_, ?_⟩
  · rintro ⟨stmt, hst, hexp⟩
    cases hc : checkStmtAt block idx with
    | none => rfl
    | some d =>
        obtain ⟨stmt', hst', hexp', -, -⟩ := checkStmtAt_some_spec hc
        rw [hst] at hst'
        cases hst'
        rw [hexp] at hexp'
        cases hexp'
  · rintro ⟨sp, hnext, hexp⟩
    cases hc : checkStmtAt block idx with
    | none => rfl
    | some d =>
        obtain ⟨-, -, -, hnext', hexp'⟩ := checkStmtAt_some_spec hc
        rw [hnext] at hnext'
        cases hnext'
        rw [hexp] at hexp'
        cases hexp'
  · intro d hd
    obtain ⟨i, -, hc⟩ := List.mem_filterMap.mp hd
    obtain ⟨stmt, hst, hexp, hnext, hdexp⟩ := checkStmtAt_some_spec hc
    exact ⟨hdexp, i, stmt, hst, hexp, hnext⟩

/-- C9 witness: a single macro-expanded statement yields no diagnostic. -/
theorem lint_never_fires_across_expansion_witness :
    checkStmtAt
      { stmts := [{ span := ⟨"m!();", true⟩, kind := .item }],
        expr := none } 0 = none :=
  (lint_never_fires_across_expansion
      { stmts := [{ span := ⟨"m!();", true⟩, kind := .item }],
        expr := none } 0).1 ⟨_, rfl, rfl⟩

/-- C10: the detection of the consuming call is purely syntactic on the
method name: the matcher accepts exactly the method calls literally named
`read` or `read_exact` whose single argument is `&mut b` with `b` a plain
single-segment path naming the binding, for every receiver expression
whatsoever (no receiver-type check), and nothing else. -/
theorem isReadCall_characterization (ident : String) (e : HExpr) :
    isReadCall ident e = true ↔
      ∃ (sp : Span) (seg : String) (recv : HExpr) (spA : Span) (rawA : Bool)
        (spP : Span),
        e = .methodCall sp seg recv
            [.addrOf spA rawA .mut (.path spP [ident])] ∧
        (seg = "read" ∨ seg = "read_exact") := by
  constructor
  · intro h
    unfold isReadCall at h
    split at h
    · rename_i sp seg recv spA rawA inner
      split at h
      · rename_i spP innerSeg
        simp only [Bool.and_eq_true, Bool.or_eq_true, beq_iff_eq] at h
        obtain ⟨hseg, rfl⟩ := h
        exact ⟨_, _, _, _, _, _, rfl, hseg⟩
      · cases h
    · cases h
  · rintro ⟨sp, seg, recv, spA, rawA, spP, rfl, hseg⟩
    rcases hseg with rfl | rfl <;> simp [isReadCall]
